import Mathlib

/-!
Verification of the `pygraph` repository core: the adjacency-list graph
store (`bipartite/graph.py`, classes `Graph` and `UDGraph`) and the
shortest-path module (`bipartite/dijkstra_algoritm.py`).

The Python code is shallowly embedded: vertices are dense natural-number
indices, each adjacency list is a Lean `List Nat` (Python lists preserve
insertion order), and a graph object is a structure holding the `edges`
rows, `vertices_num`, the cached `max_degree`, and a class tag
distinguishing `Graph` from `UDGraph` (the `UDGraph` constructor inspects
`graph.__class__`).  Python exceptions are modelled with an explicit error
type: an operation that can raise returns the resulting state together
with an optional error, because in Python the mutations performed before
the raise persist on the object.
-/

/-- Python exception kinds raised by the embedded code. -/
inductive PyError where
  | valueError
  | indexError
  | typeError
  | attributeError
deriving DecidableEq, Repr

/-- In-place update of the i-th element of a list, as Python row mutation
`rows[i].append(x)` / `rows[i].remove(x)` acts on the list of rows.  For an
out-of-range index the list is returned unchanged; every theorem below that
touches an index supplies the in-range hypothesis under which this agrees
with Python (which would raise `IndexError` before mutating anything). -/
def modifyAt {α : Type} : List α → Nat → (α → α) → List α
  | [], _, _ => []
  | a :: l, 0, f => f a :: l
  | a :: l, n + 1, f => a :: modifyAt l n f

/-- The embedding of a `Graph` / `UDGraph` object from `bipartite/graph.py`.
`isUD` is the class tag: `false` for `Graph`, `true` for `UDGraph`. -/
structure PyGraph where
  edges : List (List Nat)
  vertices_num : Nat
  max_degree : Nat
  isUD : Bool
deriving DecidableEq, Repr

/-- Row of the adjacency structure for vertex `u` (Python `self.edges[u]`,
read with an empty default so the embedding is total). -/
def adj (g : PyGraph) (u : Nat) : List Nat := g.edges.getD u []

/-- `Graph.update_max_degree`: one pass over the rows keeping the largest
length, starting from 0. -/
def computeMaxDegree (rows : List (List Nat)) : Nat :=
  rows.foldl (fun m r => if r.length > m then r.length else m) 0

/-- Vertex-count inference of `Graph.__init__` (lines 47-58): if
`vertices_num` is falsy (0), take the greatest endpoint of `edges` plus one
(Python computes `max(max(edges, key=fun x => max x.fst x.snd)) + 1`, which
equals the maximum over the edge list of the larger endpoint, plus one),
then raise it to `len(graph.edges)` when a source graph is given and is
larger. -/
def inferVerticesNum (edges : List (Nat × Nat)) (graph : Option PyGraph)
    (vertices_num : Nat) : Nat :=
  if vertices_num ≠ 0 then vertices_num
  else
    let v1 := match edges with
      | [] => 0
      | _ :: _ => ((edges.map fun p => max p.1 p.2).foldl max 0) + 1
    match graph with
    | none => v1
    | some g => if g.edges.length > v1 then g.edges.length else v1

/-- The loop `for start, end in edges: self.edges[start].append(end)` of
`Graph.__init__` (lines 63-65), in list order. -/
def addEdgesList : List (List Nat) → List (Nat × Nat) → List (List Nat)
  | rows, [] => rows
  | rows, (s, e) :: rest => addEdgesList (modifyAt rows s (fun r => r ++ [e])) rest

/-- The loop `for start, ends in enumerate(graph.edges):
self.edges[start].extend(ends)` shared by `Graph.__init__` (lines 67-69) and
`Graph.union` (lines 131-132).  Rows are processed in index order; when the
other graph has more rows than this one, Python raises `IndexError` at the
first missing row, after the extensions of all earlier rows have already
happened — the returned state keeps those extensions. -/
def unionRows : List (List Nat) → List (List Nat) → List (List Nat) × Option PyError
  | mine, [] => (mine, none)
  | [], _ :: _ => ([], some .indexError)
  | m :: ms, o :: os =>
      let rest := unionRows ms os
      ((m ++ o) :: rest.1, rest.2)

/-- `Graph.__init__(edges, graph, vertices_num)` (lines 25-73): infer the
vertex count, start from empty rows, append the explicit edges, extend with
the source graph rows, then run `update_max_degree`. -/
def mkGraph (edges : List (Nat × Nat)) (graph : Option PyGraph)
    (vertices_num : Nat) : PyGraph :=
  let n := inferVerticesNum edges graph vertices_num
  let rows0 := List.replicate n ([] : List Nat)
  let rows1 := addEdgesList rows0 edges
  let rows2 := match graph with
    | none => rows1
    | some g => (unionRows rows1 g.edges).1
  { edges := rows2, vertices_num := n,
    max_degree := computeMaxDegree rows2, isUD := false }

/-- The mirroring loop `for start, end in edges: self.edges[end].append(start)`
of `UDGraph.__init__` (lines 177-179). -/
def mirrorEdgesList : List (List Nat) → List (Nat × Nat) → List (List Nat)
  | rows, [] => rows
  | rows, (s, e) :: rest => mirrorEdgesList (modifyAt rows e (fun r => r ++ [s])) rest

/-- Inner loop of the `UDGraph.__init__` mirroring of a directed source graph
(lines 181-184): for each `end` in row `i` of the source, append `i` to
`rows[end]`. -/
def mirrorRow (rows : List (List Nat)) (i : Nat) : List Nat → List (List Nat)
  | [] => rows
  | e :: rest => mirrorRow (modifyAt rows e (fun r => r ++ [i])) i rest

/-- Outer loop of the source-graph mirroring of `UDGraph.__init__`
(lines 181-184), processing the source rows in index order starting at `i`. -/
def mirrorAllAux (rows : List (List Nat)) : List (List Nat) → Nat → List (List Nat)
  | [], _ => rows
  | inc :: rest, i => mirrorAllAux (mirrorRow rows i inc) rest (i + 1)

/-- `UDGraph.__init__` (lines 148-186): the `Graph` constructor, then the
mirroring of the explicit edge list, then — only when the source graph is of
class `Graph` exactly (`graph.__class__ == Graph`, false for `None` and for a
`UDGraph` source) — the mirroring of every source entry, then
`update_max_degree`. -/
def mkUDGraph (edges : List (Nat × Nat)) (graph : Option PyGraph)
    (vertices_num : Nat) : PyGraph :=
  let g0 := mkGraph edges graph vertices_num
  let rows1 := mirrorEdgesList g0.edges edges
  let rows2 := match graph with
    | some g => if g.isUD = false then mirrorAllAux rows1 g.edges 0 else rows1
    | none => rows1
  { edges := rows2, vertices_num := g0.vertices_num,
    max_degree := computeMaxDegree rows2, isUD := true }

/-- `Graph.add_edge(start, end)` (lines 122-125): append `end` to
`self.edges[start]`; neither `vertices_num` nor `max_degree` is touched. -/
def add_edge (g : PyGraph) (start finish : Nat) : PyGraph :=
  { g with edges := modifyAt g.edges start (fun r => r ++ [finish]) }

/-- `Graph.remove_edge(start, end)` (lines 116-119): `list.remove` deletes the
first occurrence of `end` from `self.edges[start]`, raising `ValueError`
without mutating when it is absent (`List.erase` removes exactly the first
occurrence).  For an out-of-range `start` — not a vertex — Python would
raise `IndexError` instead; the embedding reports the absent-edge error
there, agreeing with Python on all genuine vertices. -/
def remove_edge (g : PyGraph) (start finish : Nat) : PyGraph × Option PyError :=
  if finish ∈ adj g start then
    ({ g with edges := modifyAt g.edges start (fun r => r.erase finish) }, none)
  else
    (g, some .valueError)

/-- `UDGraph.add_edge(start, end)` (lines 196-200): append to both endpoint
rows, `start` side first. -/
def ud_add_edge (g : PyGraph) (start finish : Nat) : PyGraph :=
  add_edge (add_edge g start finish) finish start

/-- `UDGraph.remove_edge(start, end)` (lines 189-193): remove from the `start`
row first, then from the `end` row of the already-mutated object; when the
second `list.remove` raises, the first removal persists. -/
def ud_remove_edge (g : PyGraph) (start finish : Nat) : PyGraph × Option PyError :=
  let step1 := remove_edge g start finish
  match step1.2 with
  | some e => (step1.1, some e)
  | none => remove_edge step1.1 finish start

/-- `Graph.union(graph)` (lines 128-132): extend each of this graph's rows
with the other graph's row of the same index.  No vertex-count check of any
kind is performed. -/
def union (g other : PyGraph) : PyGraph × Option PyError :=
  let res := unionRows g.edges other.edges
  ({ g with edges := res.1 }, res.2)

/-- Counter equality used by `Graph.__eq__` (lines 76-80):
`Counter(a) == Counter(b)` holds exactly when every value occurs equally
often in the two lists; checking the keys of both sides suffices. -/
def counterEq (a b : List Nat) : Bool :=
  (a.all fun x => a.count x == b.count x) && (b.all fun x => b.count x == a.count x)

/-- `Graph.__eq__(other)` (lines 76-80): `zip` the two row lists — silently
truncating to the shorter one — and require counter equality of every
zipped pair. -/
def grapheq (g other : PyGraph) : Bool :=
  (g.edges.zip other.edges).all fun p => counterEq p.1 p.2

/-! ### The shortest-path module `bipartite/dijkstra_algoritm.py` -/

/-- The `PathTreeNode` record of `dijkstra_algoritm.py` (lines 79-87):
`index`, optional `parent`, optional tentative `weight` (defaults
`parent=None`, `weigth=None`). -/
structure PathTreeNode where
  index : Nat
  parent : Option Nat
  weight : Option Int
deriving DecidableEq, Repr

/-- `get_initial_weight_structure(count, start_vertex)` (lines 32-41): a dict
in insertion order `0, 1, ..., count-1` mapping `i` to a fresh
`PathTreeNode`, with weight `0` at the start vertex and `None` (infinity)
elsewhere. -/
def get_initial_weight_structure (count start_vertex : Nat) :
    List (Nat × PathTreeNode) :=
  (List.range count).map fun i =>
    (i, if i = start_vertex then ⟨i, none, some 0⟩ else ⟨i, none, none⟩)

/-- `compare_weights(first, second)` (lines 58-66): `None` weight loses;
between two finite weights the strictly larger first argument loses,
otherwise `first` is kept. -/
def compare_weights (first second : PathTreeNode) : PathTreeNode :=
  match second.weight with
  | none => first
  | some sw =>
    match first.weight with
    | none => second
    | some fw => if fw > sw then second else first

/-- `find_min_in_weight_structure(structure)` (lines 44-53).  For an empty
dict it returns `None`.  For a non-empty dict the very next statement is
`structure.get(keys[0])` where `keys = structure.keys()`: in Python 3 a
`dict_keys` view is not subscriptable, so this raises `TypeError` before the
comparison loop can run; the state of the loop is therefore unreachable
code. -/
def find_min_in_weight_structure (st : List (Nat × PathTreeNode)) :
    Except PyError (Option PathTreeNode) :=
  if st.length = 0 then
    .ok none
  else
    .error .typeError

/-- `relaxation(from_vertex, to_vertex, edge_weight)` (lines 68-77).  When
`from_vertex.weight` is `None` the body is skipped and nothing changes.
When it is finite, both branches of the inner conditional evaluate
`from_vertex + edge_weight` — the `PathTreeNode` object itself plus a
number, not `from_vertex.weight + edge_weight` — which raises `TypeError`
before any field is assigned (the update guard is likewise the
self-referential `from_vertex.weight < from_vertex + edge_weight` instead of
a test of the neighbor's distance). -/
def relaxation (from_vertex to_vertex : PathTreeNode) (edge_weight : Int) :
    Except PyError (PathTreeNode × PathTreeNode) :=
  let _ := edge_weight
  match from_vertex.weight with
  | none => .ok (from_vertex, to_vertex)
  | some _ => .error .typeError

/-- `dijkstra_algorithm(graph, start_index, end_index)` (lines 8-18).  Line 9
binds `graph_edges = graph.edges`, a Python list; line 10 immediately
evaluates `graph_edges.length`, and a Python list has no attribute
`length`, so every call raises `AttributeError` here.  All later lines are
unreachable (and themselves broken: the `while` loop never removes a vertex
from the structure nor ever calls `relaxation` — its body is the bare
statement `None` — and the function has no `return` statement at all). -/
def dijkstra_algorithm (graph : PyGraph) (start_index end_index : Nat) :
    Except PyError Unit :=
  let _ := graph.edges
  let _ := start_index
  let _ := end_index
  .error .attributeError

/-! ### Basic lemmas about `modifyAt` and row access -/

theorem length_modifyAt {α : Type} (l : List α) (i : Nat) (f : α → α) :
    (modifyAt l i f).length = l.length := by
  induction l generalizing i with
  | nil => rfl
  | cons a t ih =>
    cases i with
    | zero => simp [modifyAt]
    | succ n => simp [modifyAt, ih]

theorem getD_modifyAt {α : Type} (l : List α) (i j : Nat) (f : α → α) (d : α) :
    (modifyAt l i f).getD j d =
      if j = i ∧ i < l.length then f (l.getD i d) else l.getD j d := by
  induction l generalizing i j with
  | nil => simp [modifyAt]
  | cons a t ih =>
    cases i with
    | zero =>
      cases j with
      | zero => simp [modifyAt]
      | succ m => simp [modifyAt]
    | succ n =>
      cases j with
      | zero => simp [modifyAt]
      | succ m =>
        simp only [modifyAt, List.getD_cons_succ, ih, List.length_cons]
        by_cases h : m = n <;> simp [h, Nat.succ_lt_succ_iff]

theorem getD_replicate_nil (n a : Nat) :
    (List.replicate n ([] : List Nat)).getD a [] = [] := by
  induction n generalizing a with
  | zero => simp
  | succ k ih =>
    cases a with
    | zero => simp [List.replicate]
    | succ m => simp [List.replicate, ih]

/-! ### Length preservation through the constructor stages -/

theorem length_addEdgesList (es : List (Nat × Nat)) (rows : List (List Nat)) :
    (addEdgesList rows es).length = rows.length := by
  induction es generalizing rows with
  | nil => rfl
  | cons p rest ih =>
    obtain ⟨s, e⟩ := p
    simp [addEdgesList, ih, length_modifyAt]

theorem length_mirrorEdgesList (es : List (Nat × Nat)) (rows : List (List Nat)) :
    (mirrorEdgesList rows es).length = rows.length := by
  induction es generalizing rows with
  | nil => rfl
  | cons p rest ih =>
    obtain ⟨s, e⟩ := p
    simp [mirrorEdgesList, ih, length_modifyAt]

theorem length_unionRows (mine other : List (List Nat)) :
    (unionRows mine other).1.length = mine.length := by
  induction mine generalizing other with
  | nil => cases other <;> rfl
  | cons m ms ih =>
    cases other with
    | nil => rfl
    | cons o os => simp [unionRows, ih]

theorem length_mirrorRow (inc : List Nat) (rows : List (List Nat)) (i : Nat) :
    (mirrorRow rows i inc).length = rows.length := by
  induction inc generalizing rows with
  | nil => rfl
  | cons e rest ih => simp [mirrorRow, ih, length_modifyAt]

theorem length_mirrorAllAux (others : List (List Nat)) (rows : List (List Nat))
    (i : Nat) : (mirrorAllAux rows others i).length = rows.length := by
  induction others generalizing rows i with
  | nil => rfl
  | cons inc rest ih => simp [mirrorAllAux, ih, length_mirrorRow]

/-! ### Neighbor-count bookkeeping through the constructor stages -/

theorem count_addEdgesList (es : List (Nat × Nat)) (rows : List (List Nat))
    (a b : Nat) (h : ∀ p ∈ es, p.1 < rows.length) :
    ((addEdgesList rows es).getD a []).count b =
      (rows.getD a []).count b + es.count (a, b) := by
  induction es generalizing rows with
  | nil => simp [addEdgesList]
  | cons p rest ih =>
    obtain ⟨s, e⟩ := p
    have hs : s < rows.length := h (s, e) (by simp)
    rw [addEdgesList, ih _ (by intro q hq; rw [length_modifyAt]; exact h q (by simp [hq]))]
    rw [getD_modifyAt, List.count_cons]
    by_cases hsa : a = s
    · subst hsa
      rw [if_pos ⟨rfl, hs⟩, List.count_append]
      simp only [beq_iff_eq, Prod.mk.injEq, List.count_singleton, true_and]
      by_cases heb : e = b <;> simp [heb] <;> omega
    · rw [if_neg (fun hc => hsa hc.1)]
      simp only [beq_iff_eq, Prod.mk.injEq]
      rw [if_neg (fun hc => hsa hc.1.symm)]
      omega

theorem count_mirrorEdgesList (es : List (Nat × Nat)) (rows : List (List Nat))
    (a b : Nat) (h : ∀ p ∈ es, p.2 < rows.length) :
    ((mirrorEdgesList rows es).getD a []).count b =
      (rows.getD a []).count b + es.count (b, a) := by
  induction es generalizing rows with
  | nil => simp [mirrorEdgesList]
  | cons p rest ih =>
    obtain ⟨s, e⟩ := p
    have he : e < rows.length := h (s, e) (by simp)
    rw [mirrorEdgesList, ih _ (by intro q hq; rw [length_modifyAt]; exact h q (by simp [hq]))]
    rw [getD_modifyAt, List.count_cons]
    by_cases hea : a = e
    · subst hea
      rw [if_pos ⟨rfl, he⟩, List.count_append]
      simp only [beq_iff_eq, Prod.mk.injEq, List.count_singleton, and_true]
      by_cases hsb : s = b <;> simp [hsb] <;> omega
    · rw [if_neg (fun hc => hea hc.1)]
      simp only [beq_iff_eq, Prod.mk.injEq]
      rw [if_neg (fun hc => hea hc.2.symm)]
      omega

theorem getD_unionRows (mine other : List (List Nat)) (a : Nat)
    (ha : a < mine.length) :
    (unionRows mine other).1.getD a [] = mine.getD a [] ++ other.getD a [] := by
  induction mine generalizing other a with
  | nil => simp at ha
  | cons m ms ih =>
    cases other with
    | nil => simp [unionRows]
    | cons o os =>
      cases a with
      | zero => simp [unionRows]
      | succ k =>
        simp only [unionRows, List.getD_cons_succ]
        exact ih os k (by simpa using Nat.lt_of_succ_lt_succ ha)

theorem unionRows_err (mine other : List (List Nat)) :
    (unionRows mine other).2 = none ↔ other.length ≤ mine.length := by
  induction mine generalizing other with
  | nil =>
    cases other with
    | nil => simp [unionRows]
    | cons o os => simp [unionRows]
  | cons m ms ih =>
    cases other with
    | nil => simp [unionRows]
    | cons o os => simpa [unionRows, Nat.succ_le_succ_iff] using ih os

theorem count_mirrorRow (inc : List Nat) (rows : List (List Nat)) (i a b : Nat)
    (h : ∀ e ∈ inc, e < rows.length) :
    ((mirrorRow rows i inc).getD a []).count b =
      (rows.getD a []).count b + (if i = b then inc.count a else 0) := by
  induction inc generalizing rows with
  | nil => simp [mirrorRow]
  | cons e rest ih =>
    have he : e < rows.length := h e (by simp)
    rw [mirrorRow, ih _ (by intro q hq; rw [length_modifyAt]; exact h q (by simp [hq]))]
    rw [getD_modifyAt, List.count_cons]
    by_cases hea : a = e
    · subst hea
      rw [if_pos ⟨rfl, he⟩, List.count_append]
      simp only [List.count_singleton, beq_iff_eq]
      by_cases hib : i = b <;> simp [hib] <;> omega
    · rw [if_neg (fun hc => hea hc.1)]
      have heq : (e == a) = false := beq_eq_false_iff_ne.mpr (fun hc => hea hc.symm)
      rw [heq]
      by_cases hib : i = b <;> simp [hib]

theorem count_mirrorAllAux (others : List (List Nat)) (rows : List (List Nat))
    (i a b : Nat) (h : ∀ inc ∈ others, ∀ e ∈ inc, e < rows.length) :
    ((mirrorAllAux rows others i).getD a []).count b =
      (rows.getD a []).count b +
        (if i ≤ b then (others.getD (b - i) []).count a else 0) := by
  induction others generalizing rows i with
  | nil => simp [mirrorAllAux]
  | cons inc rest ih =>
    rw [mirrorAllAux, ih _ (i + 1)
      (by intro q hq e heq; rw [length_mirrorRow]; exact h q (by simp [hq]) e heq)]
    rw [count_mirrorRow inc rows i a b (h inc (by simp))]
    rcases Nat.lt_trichotomy i b with hib | hib | hib
    · obtain ⟨k, hk⟩ : ∃ k, b - i = k + 1 := ⟨b - i - 1, by omega⟩
      rw [if_neg (by omega), if_pos (by omega), if_pos (by omega), hk,
        List.getD_cons_succ]
      have : b - (i + 1) = k := by omega
      rw [this]
      omega
    · subst hib
      rw [if_pos rfl, if_neg (by omega), if_pos (by omega)]
      simp
    · rw [if_neg (by omega), if_neg (by omega), if_neg (by omega)]

theorem getD_of_length_le {α : Type} (l : List α) (n : Nat) (d : α)
    (h : l.length ≤ n) : l.getD n d = d := by
  induction l generalizing n with
  | nil => simp
  | cons a t ih =>
    cases n with
    | zero => simp at h
    | succ m => simpa using ih m (by simpa using h)

/-! ### The symmetry invariant of undirected graphs -/

/-- Count symmetry of an adjacency structure: every ordered pair of rows
stores matching numbers of mutual entries.  This is the invariant that
`UDGraph` construction establishes and that `UDGraph.add_edge` and
`UDGraph.remove_edge` preserve; it implies the membership symmetry of the
specification. -/
def symRows (rows : List (List Nat)) : Prop :=
  ∀ u v : Nat, (rows.getD u []).count v = (rows.getD v []).count u

/-- Well-formedness of a live `UDGraph` object with vertex count `n`: the row
list has length `n` and is count-symmetric. -/
def goodUD (g : PyGraph) (n : Nat) : Prop :=
  g.edges.length = n ∧ symRows g.edges

/-- Well-formedness of the arguments passed to a graph constructor, relative
to the vertex count `n` it will infer: every explicit edge endpoint is a
valid vertex, and a source graph has at most `n` rows, with in-range
entries, and is itself count-symmetric when it is a `UDGraph` (every
`UDGraph` object the Python program can ever hold is; see the reachability
theorems below).  In Python, inputs outside these bounds make the
constructor raise `IndexError` mid-initialization. -/
def ctorOk (edges : List (Nat × Nat)) (graph : Option PyGraph) (n : Nat) : Prop :=
  (∀ p ∈ edges, p.1 < n ∧ p.2 < n) ∧
    (∀ g0, graph = some g0 →
      g0.edges.length ≤ n ∧ (∀ inc ∈ g0.edges, ∀ e ∈ inc, e < n) ∧
        (g0.isUD = true → symRows g0.edges))

theorem mkGraph_edges_length (edges : List (Nat × Nat)) (graph : Option PyGraph)
    (n : Nat) : (mkGraph edges graph n).edges.length = inferVerticesNum edges graph n := by
  unfold mkGraph
  cases graph with
  | none => simp [length_addEdgesList]
  | some g0 => simp [length_unionRows, length_addEdgesList]

theorem mkUDGraph_edges_length (edges : List (Nat × Nat)) (graph : Option PyGraph)
    (n : Nat) : (mkUDGraph edges graph n).edges.length = inferVerticesNum edges graph n := by
  unfold mkUDGraph
  cases graph with
  | none => simp [length_mirrorEdgesList, mkGraph_edges_length]
  | some g0 =>
    by_cases h : g0.isUD = false <;>
      simp [h, length_mirrorAllAux, length_mirrorEdgesList, mkGraph_edges_length]

theorem mkUDGraph_vertices_num (edges : List (Nat × Nat)) (graph : Option PyGraph)
    (n : Nat) : (mkUDGraph edges graph n).vertices_num = inferVerticesNum edges graph n := rfl


/-- Neighbor-count formula for a freshly constructed directed `Graph`: row
`a` holds `b` once for every explicit edge `(a,b)` plus the source graph's
entry count. -/
theorem mkGraph_count (edges : List (Nat × Nat)) (graph : Option PyGraph)
    (n : Nat) (a b : Nat)
    (hE : ∀ p ∈ edges, p.1 < inferVerticesNum edges graph n)
    (hG : ∀ g0, graph = some g0 → g0.edges.length ≤ inferVerticesNum edges graph n) :
    ((mkGraph edges graph n).edges.getD a []).count b =
      edges.count (a, b) +
        graph.elim 0 (fun g0 => (g0.edges.getD a []).count b) := by
  set N := inferVerticesNum edges graph n with hN
  have hlen0 : (List.replicate N ([] : List Nat)).length = N := by simp
  have hlen1 : (addEdgesList (List.replicate N ([] : List Nat)) edges).length = N := by
    rw [length_addEdgesList, hlen0]
  show ((match graph with
      | none => addEdgesList (List.replicate N ([] : List Nat)) edges
      | some g0 => (unionRows (addEdgesList (List.replicate N ([] : List Nat)) edges)
          g0.edges).1).getD a []).count b = _
  cases graph with
  | none =>
    rw [count_addEdgesList _ _ a b (by rw [hlen0]; intro p hp; exact hE p hp)]
    rw [getD_replicate_nil]
    simp
  | some g0 =>
    have hg1 : g0.edges.length ≤ N := hG g0 rfl
    by_cases ha : a < N
    · rw [getD_unionRows _ _ a (by rw [hlen1]; exact ha), List.count_append]
      rw [count_addEdgesList _ _ a b (by rw [hlen0]; intro p hp; exact hE p hp)]
      rw [getD_replicate_nil]
      simp
    · have h1 : (unionRows (addEdgesList (List.replicate N ([] : List Nat)) edges)
          g0.edges).1.getD a [] = [] :=
        getD_of_length_le _ a [] (by rw [length_unionRows, hlen1]; omega)
      have h2 : g0.edges.getD a [] = [] := getD_of_length_le g0.edges a [] (by omega)
      have hcnt : edges.count (a, b) = 0 :=
        List.count_eq_zero.mpr (fun hc => ha (hE (a, b) hc))
      rw [h1]
      simp only [hcnt, Option.elim_some, h2, List.count_nil, Nat.zero_add]

/-- Neighbor-count formula for a freshly constructed `UDGraph`: row `a`
holds `b` once per explicit edge `(a,b)`, once per explicit edge `(b,a)`
(the constructor mirror), plus the source graph's own entry count —
mirrored once more when the source is a plain directed `Graph`. -/
theorem mkUDGraph_count (edges : List (Nat × Nat)) (graph : Option PyGraph)
    (n : Nat) (a b : Nat) (hok : ctorOk edges graph (inferVerticesNum edges graph n)) :
    ((mkUDGraph edges graph n).edges.getD a []).count b =
      edges.count (a, b) + edges.count (b, a) +
        graph.elim 0 (fun g0 =>
          (g0.edges.getD a []).count b +
            (if g0.isUD = false then (g0.edges.getD b []).count a else 0)) := by
  obtain ⟨hE, hG⟩ := hok
  set N := inferVerticesNum edges graph n with hN
  have hlenG : (mkGraph edges graph n).edges.length = N := mkGraph_edges_length edges graph n
  have hmk : ∀ x y : Nat, (((mkGraph edges graph n).edges.getD x []).count y) =
      edges.count (x, y) + graph.elim 0 (fun g0 => (g0.edges.getD x []).count y) :=
    fun x y => mkGraph_count edges graph n x y
      (fun p hp => (hE p hp).1) (fun g0 hg => (hG g0 hg).1)
  have hmirlen : (mirrorEdgesList (mkGraph edges graph n).edges edges).length = N := by
    rw [length_mirrorEdgesList, hlenG]
  have hmir : ∀ x y : Nat,
      ((mirrorEdgesList (mkGraph edges graph n).edges edges).getD x []).count y =
        edges.count (x, y) + edges.count (y, x) +
          graph.elim 0 (fun g0 => (g0.edges.getD x []).count y) := by
    intro x y
    rw [count_mirrorEdgesList _ _ x y (by rw [hlenG]; intro p hp; exact (hE p hp).2)]
    rw [hmk x y]
    omega
  cases graph with
  | none =>
    have hred : (mkUDGraph edges none n).edges =
        mirrorEdgesList (mkGraph edges none n).edges edges := rfl
    rw [hred]
    simpa using hmir a b
  | some g0 =>
    obtain ⟨hg1, hg2, _⟩ := hG g0 rfl
    have hred : (mkUDGraph edges (some g0) n).edges =
        if g0.isUD = false then
          mirrorAllAux (mirrorEdgesList (mkGraph edges (some g0) n).edges edges)
            g0.edges 0
        else
          mirrorEdgesList (mkGraph edges (some g0) n).edges edges := rfl
    rw [hred]
    by_cases hud : g0.isUD = false
    · rw [if_pos hud]
      rw [count_mirrorAllAux _ _ 0 a b (by rw [hmirlen]; exact hg2)]
      rw [hmir a b]
      simp [hud]
      omega
    · rw [if_neg hud]
      rw [hmir a b]
      simp [hud]

/-- A freshly constructed `UDGraph` is count-symmetric. -/
theorem symRows_mkUDGraph (edges : List (Nat × Nat)) (graph : Option PyGraph)
    (n : Nat) (hok : ctorOk edges graph (inferVerticesNum edges graph n)) :
    symRows (mkUDGraph edges graph n).edges := by
  intro u v
  rw [mkUDGraph_count edges graph n u v hok, mkUDGraph_count edges graph n v u hok]
  cases graph with
  | none => simp; omega
  | some g0 =>
    simp only [Option.elim_some]
    by_cases hud : g0.isUD = false
    · simp only [hud, if_true]
      omega
    · have hsym : symRows g0.edges :=
        (hok.2 g0 rfl).2.2 (by revert hud; cases g0.isUD <;> simp)
      simp only [hud, if_false]
      rw [hsym u v]
      omega

/-! ### Effect of the mutators on row lengths and neighbor counts -/

theorem edges_length_add_edge (g : PyGraph) (u v : Nat) :
    (add_edge g u v).edges.length = g.edges.length := length_modifyAt g.edges u _

theorem edges_length_ud_add_edge (g : PyGraph) (u v : Nat) :
    (ud_add_edge g u v).edges.length = g.edges.length := by
  unfold ud_add_edge
  rw [edges_length_add_edge, edges_length_add_edge]

theorem edges_length_remove_edge (g : PyGraph) (u v : Nat) :
    (remove_edge g u v).1.edges.length = g.edges.length := by
  unfold remove_edge
  split
  · exact length_modifyAt g.edges u _
  · rfl

theorem remove_edge_of_mem (g : PyGraph) (u v : Nat) (hmem : v ∈ adj g u) :
    remove_edge g u v =
      ({ g with edges := modifyAt g.edges u (fun r => r.erase v) }, none) := by
  unfold remove_edge
  rw [if_pos hmem]

theorem remove_edge_of_not_mem (g : PyGraph) (u v : Nat) (hmem : v ∉ adj g u) :
    remove_edge g u v = (g, some .valueError) := by
  unfold remove_edge
  rw [if_neg hmem]

theorem ud_remove_edge_of_mem (g : PyGraph) (u v : Nat) (hmem : v ∈ adj g u) :
    ud_remove_edge g u v = remove_edge (remove_edge g u v).1 v u := by
  unfold ud_remove_edge
  rw [remove_edge_of_mem g u v hmem]

theorem ud_remove_edge_of_not_mem (g : PyGraph) (u v : Nat) (hmem : v ∉ adj g u) :
    ud_remove_edge g u v = (g, some .valueError) := by
  unfold ud_remove_edge
  rw [remove_edge_of_not_mem g u v hmem]

theorem edges_length_ud_remove_edge (g : PyGraph) (u v : Nat) :
    (ud_remove_edge g u v).1.edges.length = g.edges.length := by
  by_cases hmem : v ∈ adj g u
  · rw [ud_remove_edge_of_mem g u v hmem, edges_length_remove_edge,
      edges_length_remove_edge]
  · rw [ud_remove_edge_of_not_mem g u v hmem]

theorem count_add_edge (g : PyGraph) (u v : Nat) (hu : u < g.edges.length)
    (a b : Nat) : ((add_edge g u v).edges.getD a []).count b =
      (g.edges.getD a []).count b + (if a = u ∧ b = v then 1 else 0) := by
  show ((modifyAt g.edges u fun r => r ++ [v]).getD a []).count b = _
  rw [getD_modifyAt]
  by_cases hau : a = u
  · subst hau
    rw [if_pos ⟨rfl, hu⟩, List.count_append, List.count_singleton]
    by_cases hbv : b = v
    · simp [hbv]
    · have hvb : (v == b) = false := beq_eq_false_iff_ne.mpr (fun hc => hbv hc.symm)
      simp [hvb, hbv]
  · rw [if_neg (fun hc => hau hc.1)]
    simp [hau]

theorem count_remove_edge (g : PyGraph) (u v : Nat) (hmem : v ∈ adj g u)
    (a b : Nat) : ((remove_edge g u v).1.edges.getD a []).count b =
      (g.edges.getD a []).count b - (if a = u ∧ b = v then 1 else 0) := by
  have hu : u < g.edges.length := by
    by_contra hc
    rw [adj, getD_of_length_le g.edges u [] (by omega)] at hmem
    exact absurd hmem (List.not_mem_nil v)
  rw [remove_edge_of_mem g u v hmem]
  show ((modifyAt g.edges u fun r => r.erase v).getD a []).count b = _
  rw [getD_modifyAt]
  by_cases hau : a = u
  · subst hau
    rw [if_pos ⟨rfl, hu⟩]
    by_cases hbv : b = v
    · subst hbv
      rw [List.count_erase_self]
      simp
    · rw [List.count_erase_of_ne hbv]
      simp [hbv]
  · rw [if_neg (fun hc => hau hc.1)]
    simp [hau]

theorem count_ud_add_edge (g : PyGraph) (u v : Nat) (hu : u < g.edges.length)
    (hv : v < g.edges.length) (a b : Nat) :
    ((ud_add_edge g u v).edges.getD a []).count b =
      (g.edges.getD a []).count b + (if a = u ∧ b = v then 1 else 0) +
        (if a = v ∧ b = u then 1 else 0) := by
  unfold ud_add_edge
  rw [count_add_edge (add_edge g u v) v u (by rw [edges_length_add_edge]; exact hv) a b]
  rw [count_add_edge g u v hu a b]

/-- `UDGraph.add_edge` preserves count symmetry. -/
theorem symRows_ud_add_edge (g : PyGraph) (u v : Nat) (hu : u < g.edges.length)
    (hv : v < g.edges.length) (h : symRows g.edges) :
    symRows (ud_add_edge g u v).edges := by
  intro a b
  rw [count_ud_add_edge g u v hu hv a b, count_ud_add_edge g u v hu hv b a, h a b]
  split_ifs <;> omega

/-- `UDGraph.remove_edge` preserves count symmetry, in every one of its
outcomes — including the one where the second `list.remove` raises after the
first has already mutated (which the symmetry itself confines to
self-loops). -/
theorem symRows_ud_remove_edge (g : PyGraph) (u v : Nat) (h : symRows g.edges) :
    symRows (ud_remove_edge g u v).1.edges := by
  by_cases hmem : v ∈ adj g u
  · rw [ud_remove_edge_of_mem g u v hmem]
    by_cases hmem2 : u ∈ adj (remove_edge g u v).1 v
    · intro a b
      rw [count_remove_edge _ v u hmem2 a b, count_remove_edge g u v hmem a b,
        count_remove_edge _ v u hmem2 b a, count_remove_edge g u v hmem b a, h a b]
      split_ifs <;> omega
    · have huv : u = v := by
        by_contra hne
        apply hmem2
        have hrow : adj (remove_edge g u v).1 v = adj g v := by
          rw [remove_edge_of_mem g u v hmem]
          show (modifyAt g.edges u fun r => r.erase v).getD v [] = g.edges.getD v []
          rw [getD_modifyAt, if_neg (fun hc => hne hc.1.symm)]
        rw [hrow]
        have hpos : 0 < (adj g u).count v := List.count_pos_iff.mpr hmem
        have hsw := h u v
        simp only [adj] at hpos ⊢
        exact List.count_pos_iff.mp (by omega)
      subst huv
      rw [remove_edge_of_not_mem _ u u hmem2]
      intro a b
      rw [count_remove_edge g u u hmem a b, count_remove_edge g u u hmem b a, h a b]
      split_ifs <;> omega
  · rw [ud_remove_edge_of_not_mem g u v hmem]
    exact h

/-- One mutation step on a live `UDGraph`: a call to `UDGraph.add_edge` or
`UDGraph.remove_edge` (for the latter, the state after the call whether or
not it raised). -/
inductive UDOp where
  | add (u v : Nat)
  | remove (u v : Nat)
deriving DecidableEq, Repr

def applyUDOp (g : PyGraph) : UDOp → PyGraph
  | .add u v => ud_add_edge g u v
  | .remove u v => (ud_remove_edge g u v).1

def applyUDOps (g : PyGraph) (ops : List UDOp) : PyGraph :=
  ops.foldl applyUDOp g

/-- A mutation call whose two arguments are genuine vertices of an
`n`-vertex graph.  (Python raises `IndexError` on out-of-range arguments.) -/
def opInRange (n : Nat) : UDOp → Bool
  | .add u v => decide (u < n) && decide (v < n)
  | .remove u v => decide (u < n) && decide (v < n)

theorem goodUD_applyUDOp (g : PyGraph) (op : UDOp) (n : Nat)
    (hop : opInRange n op = true) (h : goodUD g n) :
    goodUD (applyUDOp g op) n := by
  obtain ⟨hlen, hsym⟩ := h
  cases op with
  | add u v =>
    simp only [opInRange, Bool.and_eq_true, decide_eq_true_eq] at hop
    refine ⟨?_, ?_⟩
    · show (ud_add_edge g u v).edges.length = n
      rw [edges_length_ud_add_edge, hlen]
    · show symRows (ud_add_edge g u v).edges
      exact symRows_ud_add_edge g u v (by rw [hlen]; exact hop.1)
        (by rw [hlen]; exact hop.2) hsym
  | remove u v =>
    refine ⟨?_, ?_⟩
    · show (ud_remove_edge g u v).1.edges.length = n
      rw [edges_length_ud_remove_edge, hlen]
    · exact symRows_ud_remove_edge g u v hsym

theorem goodUD_applyUDOps (ops : List UDOp) (g : PyGraph) (n : Nat)
    (hops : ∀ op ∈ ops, opInRange n op = true) (h : goodUD g n) :
    goodUD (applyUDOps g ops) n := by
  induction ops generalizing g with
  | nil => exact h
  | cons op rest ih =>
    exact ih (applyUDOp g op) (fun q hq => hops q (by simp [hq]))
      (goodUD_applyUDOp g op n (hops op (by simp)) h)

theorem goodUD_mkUDGraph (edges : List (Nat × Nat)) (graph : Option PyGraph)
    (n : Nat) (hok : ctorOk edges graph (inferVerticesNum edges graph n)) :
    goodUD (mkUDGraph edges graph n) (inferVerticesNum edges graph n) :=
  ⟨mkUDGraph_edges_length edges graph n, symRows_mkUDGraph edges graph n hok⟩

/-- Claim C2: for every undirected graph built by the `UDGraph` constructor
and every finite sequence of `add_edge` / `remove_edge` calls applied to it
(arguments being genuine vertices), the symmetry invariant holds afterwards:
for all vertices `u` and `v`, `v` appears in `adjacency[u]` iff `u` appears
in `adjacency[v]`. -/
theorem udgraph_symmetry_invariant (edges : List (Nat × Nat))
    (graph : Option PyGraph) (n : Nat) (ops : List UDOp)
    (hok : ctorOk edges graph (inferVerticesNum edges graph n))
    (hops : ∀ op ∈ ops, opInRange (inferVerticesNum edges graph n) op = true)
    (u v : Nat) :
    v ∈ adj (applyUDOps (mkUDGraph edges graph n) ops) u ↔
      u ∈ adj (applyUDOps (mkUDGraph edges graph n) ops) v := by
  have hgood := goodUD_applyUDOps ops (mkUDGraph edges graph n)
    (inferVerticesNum edges graph n) hops (goodUD_mkUDGraph edges graph n hok)
  have hsym := hgood.2 u v
  simp only [adj]
  rw [← List.count_pos_iff, ← List.count_pos_iff]
  omega

/-- Witness for C2: the undirected graph on vertices 0 and 1 built from the
edge list containing the single edge `(0, 1)`, then mutated by `add_edge(0, 1)`
followed by `remove_edge(0, 1)`. -/
theorem udgraph_symmetry_invariant_witness :
    1 ∈ adj (applyUDOps (mkUDGraph [(0, 1)] none 0)
        [UDOp.add 0 1, UDOp.remove 0 1]) 0 ↔
      0 ∈ adj (applyUDOps (mkUDGraph [(0, 1)] none 0)
        [UDOp.add 0 1, UDOp.remove 0 1]) 1 :=
  udgraph_symmetry_invariant [(0, 1)] none 0 [UDOp.add 0 1, UDOp.remove 0 1]
    ⟨by decide, fun g0 h => nomatch h⟩ (by decide) 0 1

/-- Claim C6: `remove_edge(u, v)` on a directed graph removes exactly the
first occurrence of `v` from row `u`, leaves every other row untouched, and
fails (Python `ValueError`, the spec's `EdgeNotFound`) with no mutation when
the edge is absent; on an undirected graph reachable by construction and
in-range mutation, whenever either direction of the edge is missing the whole
call fails with no mutation of either adjacency list. -/
theorem remove_edge_error_handling :
    (∀ (g : PyGraph) (u v : Nat),
       (v ∈ adj g u →
          (remove_edge g u v).2 = none ∧
          adj (remove_edge g u v).1 u = (adj g u).erase v ∧
          ∀ w, w ≠ u → adj (remove_edge g u v).1 w = adj g w) ∧
       (v ∉ adj g u → remove_edge g u v = (g, some PyError.valueError))) ∧
    (∀ (edges : List (Nat × Nat)) (graph : Option PyGraph) (n : Nat)
       (ops : List UDOp),
       ctorOk edges graph (inferVerticesNum edges graph n) →
       (∀ op ∈ ops, opInRange (inferVerticesNum edges graph n) op = true) →
       ∀ u v : Nat,
         (v ∉ adj (applyUDOps (mkUDGraph edges graph n) ops) u ∨
           u ∉ adj (applyUDOps (mkUDGraph edges graph n) ops) v) →
         ud_remove_edge (applyUDOps (mkUDGraph edges graph n) ops) u v =
           (applyUDOps (mkUDGraph edges graph n) ops, some PyError.valueError)) := by
  constructor
  · intro g u v
    constructor
    · intro hmem
      have hu : u < g.edges.length := by
        by_contra hc
        rw [adj, getD_of_length_le g.edges u [] (by omega)] at hmem
        exact absurd hmem (List.not_mem_nil v)
      refine ⟨?_, ?_, ?_⟩
      · rw [remove_edge_of_mem g u v hmem]
      · rw [remove_edge_of_mem g u v hmem]
        show (modifyAt g.edges u fun r => r.erase v).getD u [] = (g.edges.getD u []).erase v
        rw [getD_modifyAt, if_pos ⟨rfl, hu⟩]
      · intro w hw
        rw [remove_edge_of_mem g u v hmem]
        show (modifyAt g.edges u fun r => r.erase v).getD w [] = g.edges.getD w []
        rw [getD_modifyAt, if_neg (fun hc => hw hc.1)]
    · exact remove_edge_of_not_mem g u v
  · intro edges graph n ops hok hops u v hmiss
    have hsym := (goodUD_applyUDOps ops (mkUDGraph edges graph n)
      (inferVerticesNum edges graph n) hops (goodUD_mkUDGraph edges graph n hok)).2
    have hnot : v ∉ adj (applyUDOps (mkUDGraph edges graph n) ops) u := by
      rcases hmiss with h1 | h1
      · exact h1
      · intro hmem
        apply h1
        have hcnt := hsym u v
        simp only [adj] at hmem ⊢
        rw [← List.count_pos_iff] at hmem ⊢
        omega
    exact ud_remove_edge_of_not_mem _ u v hnot

/-- Witness for C6: the directed graph with single edge `(0, 1)` (successful
removal reports no error), and a fresh undirected graph with edge `(0, 1)` on
which `remove_edge(0, 0)` fails without mutating. -/
theorem remove_edge_error_handling_witness :
    (remove_edge (mkGraph [(0, 1)] none 0) 0 1).2 = none ∧
    ud_remove_edge (mkUDGraph [(0, 1)] none 0) 0 0 =
      (mkUDGraph [(0, 1)] none 0, some PyError.valueError) := by
  constructor
  · exact ((remove_edge_error_handling.1 (mkGraph [(0, 1)] none 0) 0 1).1
      (by decide)).1
  · exact remove_edge_error_handling.2 [(0, 1)] none 0 []
      ⟨by decide, fun g0 h => nomatch h⟩ (by decide) 0 0 (Or.inl (by decide))

/-! ### Evaluations of the broken shortest-path module -/

/-- Claim C1 (code defect): on the spec's sample graph — edges `(0,1)`,
`(0,2)`, `(2,1)`, `(1,3)`, `(2,3)` — the call `dijkstra_algorithm(graph, 0, 3)`
does not return distance 3 with path `[0, 2, 1, 3]`: it raises
`AttributeError` at `graph_edges.length` (line 10) before doing any work.
(The `Graph` store also carries no edge weights at all, and the function has
no `return` statement.) -/
theorem dijkstra_sample_run :
    dijkstra_algorithm (mkGraph [(0, 1), (0, 2), (2, 1), (1, 3), (2, 3)] none 0)
        0 3 = Except.error PyError.attributeError := rfl

/-- Claim C3 (code defect): the shortest-path computation never reaches its
main loop on any graph and any start and end index — every call raises
`AttributeError` at `graph_edges.length` (line 10).  The loop itself, were
it reached, removes no vertex from the unvisited structure and records no
visit (its body is the bare statement `None`), so it could not visit one
vertex per iteration nor stop after `vertices_num` iterations. -/
theorem dijkstra_never_reaches_loop (graph : PyGraph)
    (start_index end_index : Nat) :
    dijkstra_algorithm graph start_index end_index =
      Except.error PyError.attributeError := rfl

/-- Claim C4 (code defect): a relaxation step with a finite current distance
(vertex 0 at distance 0), an infinite neighbor (vertex 1), and edge weight 1
does not set the neighbor's distance to 0 + 1 with parent 0: it raises
`TypeError` at `from_vertex + edge_weight` (line 71), which adds the
`PathTreeNode` object itself — not its weight — to the number. -/
theorem relaxation_sample_run :
    relaxation ⟨0, none, some 0⟩ ⟨1, none, none⟩ 1 =
      Except.error PyError.typeError := rfl

/-- Claim C5 (code defect): on the non-empty weight structure for two
vertices with start vertex 0 (vertex 0 at finite distance 0, vertex 1 at
infinity), the minimum-selection routine does not return the record of
vertex 0: it raises `TypeError` at `keys[0]` (line 50), because `dict.keys()`
is not subscriptable in Python 3. -/
theorem find_min_sample_run :
    find_min_in_weight_structure (get_initial_weight_structure 2 0) =
      Except.error PyError.typeError := rfl

/-! ### Union, add/remove round trip, and equality -/

/-- Counterexample to C7 as stated: `union` on graphs with vertex counts 2
and 1 does not fail with a vertex-count error and does not leave the graph
unmerged — it succeeds (no error) and extends row 0. -/
theorem union_mismatch_counterexample :
    (mkGraph [] none 2).vertices_num ≠ (mkGraph [(0, 0)] none 0).vertices_num ∧
    (union (mkGraph [] none 2) (mkGraph [(0, 0)] none 0)).2 = none ∧
    (union (mkGraph [] none 2) (mkGraph [(0, 0)] none 0)).1.edges ≠
      (mkGraph [] none 2).edges := by
  refine ⟨by decide, rfl, by decide⟩

/-- Claim C7 as amended: `union` performs no vertex-count validation.  It
raises an error (`IndexError`, not a vertex-count error) exactly when the
other graph has more rows, after having already extended every row of this
graph; and every row `i` of this graph is extended with the other graph's
row `i` (rows the other graph lacks are extended by nothing). -/
theorem union_behavior (g other : PyGraph) :
    ((union g other).2 = none ↔ other.edges.length ≤ g.edges.length) ∧
    ∀ i, i < g.edges.length → adj (union g other).1 i = adj g i ++ adj other i := by
  constructor
  · exact unionRows_err g.edges other.edges
  · intro i hi
    exact getD_unionRows g.edges other.edges i hi

/-- Witness for C7 (amended): two one-vertex graphs; the union succeeds and
row 0 is the concatenation of the two rows. -/
theorem union_behavior_witness :
    ((union (mkGraph [(0, 0)] none 0) (mkGraph [(0, 0)] none 0)).2 = none ↔
      (mkGraph [(0, 0)] none 0).edges.length ≤ (mkGraph [(0, 0)] none 0).edges.length) ∧
    adj (union (mkGraph [(0, 0)] none 0) (mkGraph [(0, 0)] none 0)).1 0 =
      adj (mkGraph [(0, 0)] none 0) 0 ++ adj (mkGraph [(0, 0)] none 0) 0 :=
  ⟨(union_behavior (mkGraph [(0, 0)] none 0) (mkGraph [(0, 0)] none 0)).1,
    (union_behavior (mkGraph [(0, 0)] none 0) (mkGraph [(0, 0)] none 0)).2 0 (by decide)⟩

/-- Counterexample to C8 as stated: on the directed graph with rows
`[[1,2],[],[]]`, `add_edge(0,1)` gives row 0 = `[1,2,1]` and `remove_edge(0,1)`
then deletes the FIRST occurrence, giving `[2,1]` — the multiset is restored
but the adjacency list is not the prior list `[1,2]`. -/
theorem add_remove_counterexample :
    (remove_edge (add_edge (mkGraph [(0, 1), (0, 2)] none 0) 0 1) 0 1).1 ≠
      mkGraph [(0, 1), (0, 2)] none 0 := by decide

/-- Claim C8 as amended: `add_edge(u,v)` followed immediately by
`remove_edge(u,v)` removes exactly one occurrence and restores every
adjacency list as a multiset (so the graphs are equal under `__eq__`), for
the directed and the undirected variant alike; the literal list order may
differ when `v` already occurred in row `u` before the append. -/
theorem add_then_remove_restores_counts (g : PyGraph) (u v : Nat)
    (hu : u < g.edges.length) :
    ((remove_edge (add_edge g u v) u v).2 = none ∧
      ∀ w x, (adj (remove_edge (add_edge g u v) u v).1 w).count x =
        (adj g w).count x) ∧
    (v < g.edges.length →
      (ud_remove_edge (ud_add_edge g u v) u v).2 = none ∧
      ∀ w x, (adj (ud_remove_edge (ud_add_edge g u v) u v).1 w).count x =
        (adj g w).count x) := by
  have hmemd : v ∈ adj (add_edge g u v) u := by
    show v ∈ (modifyAt g.edges u fun r => r ++ [v]).getD u []
    rw [getD_modifyAt, if_pos ⟨rfl, hu⟩]
    simp
  constructor
  · constructor
    · rw [remove_edge_of_mem _ u v hmemd]
    · intro w x
      show ((remove_edge (add_edge g u v) u v).1.edges.getD w []).count x =
        ((g.edges.getD w []).count x)
      rw [count_remove_edge _ u v hmemd w x, count_add_edge g u v hu w x]
      split_ifs <;> omega
  · intro hv
    have hmem1 : v ∈ adj (ud_add_edge g u v) u := by
      show v ∈ (ud_add_edge g u v).edges.getD u []
      refine List.count_pos_iff.mp ?_
      rw [count_ud_add_edge g u v hu hv u v]
      split_ifs <;> omega
    have hrm1 := count_remove_edge (ud_add_edge g u v) u v hmem1
    have hmem2 : u ∈ adj (remove_edge (ud_add_edge g u v) u v).1 v := by
      show u ∈ (remove_edge (ud_add_edge g u v) u v).1.edges.getD v []
      refine List.count_pos_iff.mp ?_
      rw [hrm1 v u, count_ud_add_edge g u v hu hv v u]
      split_ifs <;> omega
    constructor
    · rw [ud_remove_edge_of_mem _ u v hmem1, remove_edge_of_mem _ v u hmem2]
    · intro w x
      rw [ud_remove_edge_of_mem _ u v hmem1]
      show ((remove_edge (remove_edge (ud_add_edge g u v) u v).1 v u).1.edges.getD
          w []).count x = ((g.edges.getD w []).count x)
      rw [count_remove_edge _ v u hmem2 w x, hrm1 w x,
        count_ud_add_edge g u v hu hv w x]
      split_ifs <;> omega

/-- Witness for C8 (amended): the directed graph with rows `[[1,2],[],[]]`
and the undirected graph on `{0,1}` with edge `(0,1)`; the round trips
report no error and every neighbor count is restored. -/
theorem add_then_remove_restores_counts_witness :
    ((remove_edge (add_edge (mkGraph [(0, 1), (0, 2)] none 0) 0 1) 0 1).2 = none) ∧
    ((adj (remove_edge (add_edge (mkGraph [(0, 1), (0, 2)] none 0) 0 1) 0 1).1
        0).count 1 = (adj (mkGraph [(0, 1), (0, 2)] none 0) 0).count 1) ∧
    ((ud_remove_edge (ud_add_edge (mkUDGraph [(0, 1)] none 0) 0 1) 0 1).2 = none) := by
  have h1 := add_then_remove_restores_counts (mkGraph [(0, 1), (0, 2)] none 0)
    0 1 (by decide)
  have h2 := add_then_remove_restores_counts (mkUDGraph [(0, 1)] none 0)
    0 1 (by decide)
  exact ⟨h1.1.1, h1.1.2 0 1, (h2.2 (by decide)).1⟩

theorem counterEq_iff (a b : List Nat) :
    counterEq a b = true ↔ ∀ x, a.count x = b.count x := by
  unfold counterEq
  rw [Bool.and_eq_true, List.all_eq_true, List.all_eq_true]
  constructor
  · rintro ⟨h1, h2⟩ x
    by_cases hxa : x ∈ a
    · simpa using h1 x hxa
    · by_cases hxb : x ∈ b
      · have := h2 x hxb
        simp at this
        omega
      · rw [List.count_eq_zero_of_not_mem hxa, List.count_eq_zero_of_not_mem hxb]
  · intro h
    exact ⟨fun x _ => by simpa using h x, fun x _ => by simp [h x]⟩

theorem zip_counterEq_iff (xs ys : List (List Nat)) :
    ((xs.zip ys).all fun p => counterEq p.1 p.2) = true ↔
      ∀ i, i < min xs.length ys.length →
        ∀ x, (xs.getD i []).count x = (ys.getD i []).count x := by
  induction xs generalizing ys with
  | nil => simp
  | cons a xs ih =>
    cases ys with
    | nil => simp
    | cons b ys =>
      simp only [List.zip_cons_cons, List.all_cons, Bool.and_eq_true, ih,
        counterEq_iff]
      constructor
      · rintro ⟨h1, h2⟩ i hi x
        rw [Nat.lt_min] at hi
        cases i with
        | zero => simpa using h1 x
        | succ k =>
          simp only [List.getD_cons_succ]
          exact h2 k (by rw [Nat.lt_min]; simp at hi; omega) x
      · intro h
        refine ⟨fun x => ?_, fun k hk x => ?_⟩
        · simpa using h 0 (by rw [Nat.lt_min]; simp) x
        · rw [Nat.lt_min] at hk
          simpa using h (k + 1) (by rw [Nat.lt_min]; simp; omega) x

/-- Counterexample to C9 as stated: the graphs built from the single
self-loop edge `(0,0)` with vertex counts 1 and 2 have different vertex
counts, yet `__eq__` reports them equal — `zip` silently drops the second
graph's extra row. -/
theorem grapheq_mismatch_counterexample :
    (mkGraph [(0, 0)] none 1).vertices_num ≠ (mkGraph [(0, 0)] none 2).vertices_num ∧
    grapheq (mkGraph [(0, 0)] none 1) (mkGraph [(0, 0)] none 2) = true := by
  refine ⟨by decide, by decide⟩

/-- Claim C9 as amended: `g1 == g2` holds iff, for every vertex index below
the smaller of the two row-list lengths, the multiset of that vertex's
neighbors (every value with equal multiplicity) is identical in both
graphs; rows beyond the shorter list are ignored, so graphs with differing
vertex counts can compare equal. -/
theorem grapheq_iff (g other : PyGraph) :
    grapheq g other = true ↔
      ∀ i, i < min g.edges.length other.edges.length →
        ∀ x, (adj g i).count x = (adj other i).count x :=
  zip_counterEq_iff g.edges other.edges

/-- Witness for C9 (amended): two equal one-row graphs. -/
theorem grapheq_iff_witness :
    grapheq (mkGraph [(0, 0)] none 0) (mkGraph [(0, 0)] none 0) = true ↔
      ∀ i, i < min (mkGraph [(0, 0)] none 0).edges.length
          (mkGraph [(0, 0)] none 0).edges.length →
        ∀ x, (adj (mkGraph [(0, 0)] none 0) i).count x =
          (adj (mkGraph [(0, 0)] none 0) i).count x :=
  grapheq_iff (mkGraph [(0, 0)] none 0) (mkGraph [(0, 0)] none 0)

/-- Claim C10: `add_edge`, `remove_edge` (also when it raises) and `union`
never touch `vertices_num` or the cached `max_degree`, and the edge mutators
leave every row other than row `u` (directed) respectively rows `u` and `v`
(undirected) unchanged. -/
theorem mutators_frame (g other : PyGraph) (u v w : Nat) :
    ((add_edge g u v).vertices_num = g.vertices_num ∧
      (add_edge g u v).max_degree = g.max_degree ∧
      (w ≠ u → adj (add_edge g u v) w = adj g w)) ∧
    ((ud_add_edge g u v).vertices_num = g.vertices_num ∧
      (ud_add_edge g u v).max_degree = g.max_degree ∧
      (w ≠ u → w ≠ v → adj (ud_add_edge g u v) w = adj g w)) ∧
    ((remove_edge g u v).1.vertices_num = g.vertices_num ∧
      (remove_edge g u v).1.max_degree = g.max_degree ∧
      (w ≠ u → adj (remove_edge g u v).1 w = adj g w)) ∧
    ((ud_remove_edge g u v).1.vertices_num = g.vertices_num ∧
      (ud_remove_edge g u v).1.max_degree = g.max_degree ∧
      (w ≠ u → w ≠ v → adj (ud_remove_edge g u v).1 w = adj g w)) ∧
    ((union g other).1.vertices_num = g.vertices_num ∧
      (union g other).1.max_degree = g.max_degree) := by
  have hadj_add : ∀ (h : PyGraph) (s f : Nat), w ≠ s →
      adj (add_edge h s f) w = adj h w := by
    intro h s f hw
    show (modifyAt h.edges s fun r => r ++ [f]).getD w [] = h.edges.getD w []
    rw [getD_modifyAt, if_neg (fun hc => hw hc.1)]
  have hadj_rem : ∀ (h : PyGraph) (s f : Nat), w ≠ s →
      adj (remove_edge h s f).1 w = adj h w := by
    intro h s f hw
    by_cases hmem : f ∈ adj h s
    · rw [remove_edge_of_mem h s f hmem]
      show (modifyAt h.edges s fun r => r.erase f).getD w [] = h.edges.getD w []
      rw [getD_modifyAt, if_neg (fun hc => hw hc.1)]
    · rw [remove_edge_of_not_mem h s f hmem]
  refine ⟨⟨rfl, rfl, hadj_add g u v⟩, ⟨rfl, rfl, ?_⟩, ⟨?_, ?_, hadj_rem g u v⟩,
    ⟨?_, ?_, ?_⟩, rfl, rfl⟩
  · intro hwu hwv
    unfold ud_add_edge
    rw [hadj_add _ v u hwv, hadj_add g u v hwu]
  · by_cases hmem : v ∈ adj g u
    · rw [remove_edge_of_mem g u v hmem]
    · rw [remove_edge_of_not_mem g u v hmem]
  · by_cases hmem : v ∈ adj g u
    · rw [remove_edge_of_mem g u v hmem]
    · rw [remove_edge_of_not_mem g u v hmem]
  · by_cases hmem : v ∈ adj g u
    · rw [ud_remove_edge_of_mem g u v hmem]
      by_cases hmem2 : u ∈ adj (remove_edge g u v).1 v
      · rw [remove_edge_of_mem _ v u hmem2, remove_edge_of_mem g u v hmem]
      · rw [remove_edge_of_not_mem _ v u hmem2, remove_edge_of_mem g u v hmem]
    · rw [ud_remove_edge_of_not_mem g u v hmem]
  · by_cases hmem : v ∈ adj g u
    · rw [ud_remove_edge_of_mem g u v hmem]
      by_cases hmem2 : u ∈ adj (remove_edge g u v).1 v
      · rw [remove_edge_of_mem _ v u hmem2, remove_edge_of_mem g u v hmem]
      · rw [remove_edge_of_not_mem _ v u hmem2, remove_edge_of_mem g u v hmem]
    · rw [ud_remove_edge_of_not_mem g u v hmem]
  · intro hwu hwv
    by_cases hmem : v ∈ adj g u
    · rw [ud_remove_edge_of_mem g u v hmem]
      rw [hadj_rem _ v u hwv, hadj_rem g u v hwu]
    · rw [ud_remove_edge_of_not_mem g u v hmem]

/-- Witness for C10: a concrete two-vertex graph, `u = 0`, `v = 1`, frame
vertex `w = 1` for the directed parts (with `w = 2` implicit in the
undirected instantiation below). -/
theorem mutators_frame_witness :
    ((add_edge (mkGraph [(0, 1)] none 0) 0 1).max_degree =
      (mkGraph [(0, 1)] none 0).max_degree) ∧
    (adj (add_edge (mkGraph [(0, 1)] none 0) 0 1) 1 = adj (mkGraph [(0, 1)] none 0) 1) ∧
    (adj (ud_remove_edge (mkGraph [(0, 1)] none 0) 0 1).1 2 =
      adj (mkGraph [(0, 1)] none 0) 2) ∧
    ((union (mkGraph [(0, 1)] none 0) (mkGraph [(0, 1)] none 0)).1.vertices_num =
      (mkGraph [(0, 1)] none 0).vertices_num) := by
  have h := mutators_frame (mkGraph [(0, 1)] none 0) (mkGraph [(0, 1)] none 0) 0 1 1
  have h2 := mutators_frame (mkGraph [(0, 1)] none 0) (mkGraph [(0, 1)] none 0) 0 1 2
  exact ⟨h.1.2.1, h.1.2.2 (by decide), h2.2.2.2.1.2.2 (by decide) (by decide),
    h.2.2.2.2.1⟩
